import Mathlib

/-
Verification development for jax/experimental/global_device_array.py.

The data model and operations below are shallow embeddings of the Python
source. Devices, device buffers and the mesh are modelled structurally:
a device carries an id and the index of the process owning it; a device
buffer carries its device, its shape and its dtype (element type, coded
as a natural number). The current process index (xb.process_index() in
the source) is passed explicitly as a parameter named proc.
-/

set_option autoImplicit false

namespace GDA

/-- A device of the mesh: an id and the owning process index
(device.process_index in the source). -/
structure Device where
  id : Nat
  processIndex : Nat
deriving DecidableEq, Repr

/-- A device buffer (DeviceArray in the source): the device it lives on
(db.device()), its shape (db.shape) and its element type (db.dtype),
coded as a natural number. -/
structure DeviceArray where
  device : Device
  shape : List Nat
  dtype : Nat
deriving DecidableEq, Repr

/-- An Index: per array axis a half open interval (slice.start, slice.stop)
into the global array. Matches the source type Index = Tuple[slice, ...],
compared structurally exactly as _HashableIndex compares slices. -/
abbrev Index := List (Nat × Nat)

/-- One entry of mesh_axes (MeshAxes = Sequence[Union[str, Tuple[str], None]]
in the source): None, a single mesh axis name, or a tuple of names. -/
inductive AxisRes where
  | unsharded : AxisRes
  | single : String → AxisRes
  | combined : List String → AxisRes
deriving DecidableEq, Repr

/-- Python truthiness of a mesh_axes entry: `not mesh_axis` is true for
None, the empty tuple and the empty string. -/
def AxisRes.falsy : AxisRes → Bool
  | .unsharded => true
  | .single a => a.isEmpty
  | .combined as => as.isEmpty

/-- A single name entry carries a real (nonempty) axis name. Mesh axis
names are nonempty strings, so every mesh_axes entry built from real
axis names satisfies this. -/
def AxisRes.wfEntry : AxisRes → Bool
  | .single a => !a.isEmpty
  | _ => true

/-- The global mesh (pxla.Mesh in the source): the ordered mapping from
axis name to axis size (global_mesh.shape, insertion ordered), and the
flat device list in canonical row major traversal order
(global_mesh.devices.flat). -/
structure Mesh where
  axes : List (String × Nat)
  devices : List Device
deriving DecidableEq, Repr

/-- Size of a named mesh axis: global_mesh.shape[name]. A missing name is
given size 0 here; the theorems carry hypotheses keeping names valid,
matching the KeyError the source would raise. -/
def Mesh.axisSize (m : Mesh) (a : String) : Nat :=
  ((m.axes.find? (fun p => p.1 == a)).map (fun p => p.2)).getD 0

/-- Devices of the mesh owned by process proc, in flat traversal order:
global_mesh.local_devices. -/
def Mesh.localDevices (m : Mesh) (proc : Nat) : List Device :=
  m.devices.filter (fun d => d.processIndex == proc)

/-- Well formed mesh: distinct devices, distinct axis names, positive axis
sizes, and a flat device list whose length is the product of the axis
sizes (safe_zip in the source asserts the last condition). -/
def Mesh.WF (m : Mesh) : Prop :=
  m.devices.Nodup ∧ (m.axes.map (fun p => p.1)).Nodup ∧
    (∀ p ∈ m.axes, 0 < p.2) ∧ m.devices.length = (m.axes.map (fun p => p.2)).prod

/-- Loop body of get_shard_shape (source lines 77 to 84) on one pair
(mesh_axis, size): `if not mesh_axis` keeps the size, a tuple entry
divides by the product of the named axis sizes, a single name divides
by that axis size. -/
def shardChunk (global_mesh : Mesh) (p : AxisRes × Nat) : Nat :=
  if p.1.falsy then p.2
  else match p.1 with
    | .combined as => p.2 / ((as.map global_mesh.axisSize).prod)
    | .single a => p.2 / global_mesh.axisSize a
    | .unsharded => p.2

/-- Embedding of get_shard_shape (source lines 75 to 87): per entry of
mesh_axes zipped with the global shape, the chunk of shardChunk; then
the chunk list is extended with the remaining trailing global sizes
when shorter than the global shape. -/
def get_shard_shape (global_shape : List Nat) (global_mesh : Mesh)
    (mesh_axes : List AxisRes) : List Nat :=
  let chunk_size := (mesh_axes.zip global_shape).map (shardChunk global_mesh)
  if chunk_size.length ≠ global_shape.length then
    chunk_size ++ global_shape.drop chunk_size.length
  else chunk_size

/-- All mesh coordinate vectors in row major order: the flat device list
of a mesh with these axis sizes visits coordinates in exactly this
order. -/
def meshCoords : List Nat → List (List Nat)
  | [] => [[]]
  | s :: rest => (List.range s).flatMap (fun c => (meshCoords rest).map (fun v => c :: v))

/-- Position of a named axis in the mesh axis list. -/
def Mesh.axisPos (m : Mesh) (a : String) : Nat :=
  (m.axes.map (fun p => p.1)).indexOf a

/-- Coordinate of a device (given by its mesh coordinate vector) along a
named mesh axis. -/
def axisCoord (m : Mesh) (coords : List Nat) (a : String) : Nat :=
  coords.getD (m.axisPos a) 0

/-- Modelled from the spec: the joint coordinate of a device within the
index space of the listed mesh axes, combined in declared order, row
major (section 4.2 of the spec; the underlying computation lives in
pxla.mesh_sharding_specs / pxla.spec_to_indices, outside this file's
sources). -/
def combinedCoord (m : Mesh) (coords : List Nat) (as : List String) : Nat :=
  as.foldl (fun acc a => acc * m.axisSize a + axisCoord m coords a) 0

/-- Modelled from the spec: the Index of the device with mesh coordinate
vector coords (section 4.2). Per global axis: an unsharded entry yields
(0, global size); a sharded entry yields (c * s, c * s + s) where s is
the shard size from get_shard_shape and c the combined coordinate along
the contributing mesh axes. Entries beyond the mapping length are
unsharded. -/
def coordIndex (global_shape : List Nat) (m : Mesh) (mesh_axes : List AxisRes)
    (coords : List Nat) : Index :=
  let ss := get_shard_shape global_shape m mesh_axes
  (List.range global_shape.length).map (fun i =>
    match mesh_axes.getD i .unsharded with
    | .unsharded => (0, global_shape.getD i 0)
    | .single a =>
        let s := ss.getD i 0
        let c := combinedCoord m coords [a]
        (c * s, c * s + s)
    | .combined as =>
        let s := ss.getD i 0
        let c := combinedCoord m coords as
        (c * s, c * s + s))

/-- Modelled from the spec: the per device Index list in canonical flat
device order (the list zipped against global_mesh.devices.flat by
get_shard_indices). -/
def indicesList (global_shape : List Nat) (m : Mesh) (mesh_axes : List AxisRes) :
    List Index :=
  (meshCoords (m.axes.map (fun p => p.2))).map (coordIndex global_shape m mesh_axes)

/-- Embedding of get_shard_indices (source lines 49 to 72): the mapping
from each device of the flat traversal to its Index, as an insertion
ordered association list (the source builds a dict from
safe_zip(global_mesh.devices.flat, indices); the index computation
itself is modelled from the spec, see indicesList). -/
def get_shard_indices (global_shape : List Nat) (m : Mesh) (mesh_axes : List AxisRes) :
    List (Device × Index) :=
  m.devices.zip (indicesList global_shape m mesh_axes)

/-- A single data shard (source lines 90 to 106): device, Index, replica
id, and the optional local buffer (none on a non local device). -/
structure Shard where
  device : Device
  index : Index
  replica_id : Nat
  data : Option DeviceArray
deriving DecidableEq, Repr

/-- The errors the constructor can raise: the failed assert on the buffer
count (line 216), a KeyError from device_to_buffer lookup (line 256),
the ValueError on a local shard without data (line 261), the failed
shape assert (line 221), the IndexError reading device_buffers[0] when
the buffer list is empty (line 225), and the failed dtype assert
(line 226). -/
inductive GdaError where
  | countMismatch : GdaError
  | keyError : GdaError
  | localDataNone : GdaError
  | shapeMismatch : GdaError
  | emptyBuffers : GdaError
  | dtypeMismatch : GdaError
deriving DecidableEq, Repr

/-- The constructed GlobalDeviceArray (source lines 109 to 282): global
shape, the full shard list, the local shard list and the dtype. -/
structure GlobalDeviceArray where
  global_shape : List Nat
  global_shards : List Shard
  local_shards : List Shard
  dtype : Nat
deriving DecidableEq, Repr

/-- The dict device_to_buffer built on line 248: later buffers override
earlier ones on the same device, hence the lookup scans from the back. -/
def bufLookup (device_buffers : List DeviceArray) (d : Device) : Option DeviceArray :=
  device_buffers.reverse.find? (fun db => db.device == d)

/-- Embedding of the loop of _create_shards (source lines 249 to 263):
walk the device to Index pairs in canonical order keeping a Counter cnt
keyed by Index (structural equality, as _HashableIndex), assign each
device the current count as replica id, look up the buffer for a local
device (KeyError when absent), raise when a local shard has no data,
and accumulate the global and local shard lists. -/
def createShardsAux (proc : Nat) (lb : Device → Option DeviceArray) :
    List (Device × Index) → (Index → Nat) → Except GdaError (List Shard × List Shard)
  | [], _ => .ok ([], [])
  | (d, idx) :: rest, cnt =>
      let replica := cnt idx
      let cnt2 : Index → Nat := fun j => if j = idx then cnt j + 1 else cnt j
      if d.processIndex == proc then
        match lb d with
        | none => .error .keyError
        | some b =>
            let sh : Shard := ⟨d, idx, replica, some b⟩
            if sh.data = none then .error .localDataNone
            else
              match createShardsAux proc lb rest cnt2 with
              | .error e => .error e
              | .ok (gs, ls) => .ok (sh :: gs, sh :: ls)
      else
        let sh : Shard := ⟨d, idx, replica, none⟩
        match createShardsAux proc lb rest cnt2 with
        | .error e => .error e
        | .ok (gs, ls) => .ok (sh :: gs, ls)

/-- Embedding of _create_shards (source lines 243 to 263): the Counter
starts empty (every Index counts 0). -/
def create_shards (global_shape : List Nat) (m : Mesh) (mesh_axes : List AxisRes)
    (device_buffers : List DeviceArray) (proc : Nat) :
    Except GdaError (List Shard × List Shard) :=
  createShardsAux proc (bufLookup device_buffers)
    (get_shard_indices global_shape m mesh_axes) (fun _ => 0)

/-- Embedding of GlobalDeviceArray.__init__ (source lines 190 to 229), in
source order: assert the buffer count equals the local device count,
build the shards, assert every buffer has the computed shard shape,
read device_buffers[0].dtype (IndexError on an empty list), assert all
dtypes match, and return the constructed value. -/
def GlobalDeviceArray.init (global_shape : List Nat) (global_mesh : Mesh)
    (mesh_axes : List AxisRes) (device_buffers : List DeviceArray) (proc : Nat) :
    Except GdaError GlobalDeviceArray :=
  if device_buffers.length ≠ (global_mesh.localDevices proc).length then
    .error .countMismatch
  else
    match create_shards global_shape global_mesh mesh_axes device_buffers proc with
    | .error e => .error e
    | .ok (gs, ls) =>
      if device_buffers.all (fun db =>
          db.shape == get_shard_shape global_shape global_mesh mesh_axes) then
        match device_buffers with
        | [] => .error .emptyBuffers
        | db0 :: _ =>
          if device_buffers.all (fun db => db.dtype == db0.dtype) then
            .ok ⟨global_shape, gs, ls, db0.dtype⟩
          else .error .dtypeMismatch
      else .error .shapeMismatch

/-- Dict lookup indices[device] (source line 316). The theorems keep the
device among the keys, matching the KeyError the source would raise on
a missing device. -/
def lookupIndex (pairs : List (Device × Index)) (d : Device) : Index :=
  ((pairs.find? (fun pr => pr.1 == d)).map (fun pr => pr.2)).getD []

/-- One step of the defaultdict(list) grouping of source lines 314 to 317:
append device d to the group of index i, creating the group at the end
on first occurrence (dict insertion order). -/
def addToGroups : List (Index × List Device) → Index → Device → List (Index × List Device)
  | [], i, d => [(i, [d])]
  | (j, ds) :: rest, i, d =>
      if j = i then (j, ds ++ [d]) :: rest else (j, ds) :: addToGroups rest i d

/-- The grouping loop of source lines 314 to 317: walk the local devices
in order and group them by their Index. -/
def groupByIndex (pairs : List (Device × Index)) : List Device → List (Index × List Device)
  | locals => locals.foldl (fun gs d => addToGroups gs (lookupIndex pairs d) d) []

/-- The callback argument cb_inp of from_batched_callback_with_devices
(source lines 312 to 321): one (Index, devices in group) pair per
distinct Index among the local devices, in first occurrence order. -/
def cbInput (global_shape : List Nat) (m : Mesh) (mesh_axes : List AxisRes)
    (proc : Nat) : List (Index × List Device) :=
  groupByIndex (get_shard_indices global_shape m mesh_axes) (m.localDevices proc)

/-- Embedding of GlobalDeviceArray.from_batched_callback_with_devices
(source lines 306 to 323): build cb_inp, call the data callback once on
it, and pass its result unchanged to the constructor. -/
def from_batched_callback_with_devices (global_shape : List Nat) (m : Mesh)
    (mesh_axes : List AxisRes)
    (data_callback : List (Index × List Device) → List DeviceArray) (proc : Nat) :
    Except GdaError GlobalDeviceArray :=
  GlobalDeviceArray.init global_shape m mesh_axes
    (data_callback (cbInput global_shape m mesh_axes proc)) proc

/-- The pure (device, Index, replica id) assignment that _create_shards
computes, independent of buffers and of the current process: each
device gets the running count of its Index value in canonical order. -/
def annotateReplicas : List (Device × Index) → (Index → Nat) → List (Device × Index × Nat)
  | [], _ => []
  | (d, idx) :: rest, cnt =>
      (d, idx, cnt idx) :: annotateReplicas rest (fun j => if j = idx then cnt j + 1 else cnt j)

/-- The metadata of a shard: its device, Index and replica id, without
the data field. The metadata of the global shard list is a pure
function of (global shape, mesh, axis mapping), independent of the
process that constructed it. -/
def shardMeta (s : Shard) : Device × Index × Nat :=
  (s.device, s.index, s.replica_id)

/-- Concrete 2 by 2 mesh with axes x and y, four devices all owned by
process 0 (the mesh of concrete scenarios A and B of the spec). -/
def mesh2x2 : Mesh :=
  ⟨[("x", 2), ("y", 2)], [⟨0, 0⟩, ⟨1, 0⟩, ⟨2, 0⟩, ⟨3, 0⟩]⟩

/-- Concrete one axis mesh with two devices both owned by process 0. -/
def mesh2 : Mesh := ⟨[("x", 2)], [⟨0, 0⟩, ⟨1, 0⟩]⟩

/-- Concrete one axis mesh with one device per process (processes 0
and 1). -/
def mesh2p : Mesh := ⟨[("x", 2)], [⟨0, 0⟩, ⟨1, 1⟩]⟩

/-- Four buffers of shape (4, 2) and dtype 7, one per device of
mesh2x2. -/
def bufs4x2 : List DeviceArray :=
  [⟨⟨0, 0⟩, [4, 2], 7⟩, ⟨⟨1, 0⟩, [4, 2], 7⟩, ⟨⟨2, 0⟩, [4, 2], 7⟩, ⟨⟨3, 0⟩, [4, 2], 7⟩]

/-- Concrete one axis mesh whose single device is owned by process 1, so
process 0 owns no device of it. -/
def mesh1r : Mesh := ⟨[("x", 1)], [⟨0, 1⟩]⟩

/-- Buffer of shape (2) on the process 0 device of mesh2p. -/
def bufP0 : DeviceArray := ⟨⟨0, 0⟩, [2], 7⟩

/-- Buffer of shape (2) on the process 1 device of mesh2p. -/
def bufP1 : DeviceArray := ⟨⟨1, 1⟩, [2], 7⟩

/-- The GlobalDeviceArray process 0 constructs on mesh2p for shape (4)
sharded along x. -/
def gdaP0 : GlobalDeviceArray :=
  ⟨[4],
   [⟨⟨0, 0⟩, [(0, 2)], 0, some bufP0⟩, ⟨⟨1, 1⟩, [(2, 4)], 0, none⟩],
   [⟨⟨0, 0⟩, [(0, 2)], 0, some bufP0⟩], 7⟩

/-- The GlobalDeviceArray process 1 constructs on mesh2p for shape (4)
sharded along x. -/
def gdaP1 : GlobalDeviceArray :=
  ⟨[4],
   [⟨⟨0, 0⟩, [(0, 2)], 0, none⟩, ⟨⟨1, 1⟩, [(2, 4)], 0, some bufP1⟩],
   [⟨⟨1, 1⟩, [(2, 4)], 0, some bufP1⟩], 7⟩

/-- The GlobalDeviceArray of concrete scenario B of the spec: shape
(4, 4) on mesh2x2 with mapping (None, y); two distinct Index values,
each pair of replicas numbered 0 and 1 in traversal order. -/
def gdaB : GlobalDeviceArray :=
  ⟨[4, 4],
   [⟨⟨0, 0⟩, [(0, 4), (0, 2)], 0, some ⟨⟨0, 0⟩, [4, 2], 7⟩⟩,
    ⟨⟨1, 0⟩, [(0, 4), (2, 4)], 0, some ⟨⟨1, 0⟩, [4, 2], 7⟩⟩,
    ⟨⟨2, 0⟩, [(0, 4), (0, 2)], 1, some ⟨⟨2, 0⟩, [4, 2], 7⟩⟩,
    ⟨⟨3, 0⟩, [(0, 4), (2, 4)], 1, some ⟨⟨3, 0⟩, [4, 2], 7⟩⟩],
   [⟨⟨0, 0⟩, [(0, 4), (0, 2)], 0, some ⟨⟨0, 0⟩, [4, 2], 7⟩⟩,
    ⟨⟨1, 0⟩, [(0, 4), (2, 4)], 0, some ⟨⟨1, 0⟩, [4, 2], 7⟩⟩,
    ⟨⟨2, 0⟩, [(0, 4), (0, 2)], 1, some ⟨⟨2, 0⟩, [4, 2], 7⟩⟩,
    ⟨⟨3, 0⟩, [(0, 4), (2, 4)], 1, some ⟨⟨3, 0⟩, [4, 2], 7⟩⟩], 7⟩

/-- The per axis shard size the spec describes for axis i (section 4.1):
global size for an unsharded (or missing trailing) entry, division by
the named axis size for a single name, division by the product of the
named axis sizes for a tuple of names. -/
def specShardSize (global_shape : List Nat) (m : Mesh) (mesh_axes : List AxisRes)
    (i : Nat) : Nat :=
  match mesh_axes.getD i .unsharded with
  | .unsharded => global_shape.getD i 0
  | .single a => global_shape.getD i 0 / m.axisSize a
  | .combined as => global_shape.getD i 0 / ((as.map m.axisSize).prod)

/-- The group of devices an insertion ordered group list assigns to an
Index value (empty when the value is not a key). Used to specify the
defaultdict grouping of from_batched_callback_with_devices. -/
def groupsFun (gs : List (Index × List Device)) (v : Index) : List Device :=
  ((gs.find? (fun pr => pr.1 == v)).map (fun pr => pr.2)).getD []

/-- A data callback for from_batched_callback_with_devices that returns
exactly one buffer per (Index, devices in group) pair, placed on the
first device of the group: the behaviour claim C1 describes. -/
def cbOnePerGroup : List (Index × List Device) → List DeviceArray :=
  fun gs => gs.map (fun g => ⟨g.2.headD ⟨0, 0⟩, [4], 7⟩)

/-- The mesh axis names a mesh_axes entry mentions. -/
def namesOf : AxisRes → List String
  | .unsharded => []
  | .single a => [a]
  | .combined as => as

/-- An Index covers the global point g: per axis the coordinate of g lies
in the half open interval of the Index. -/
def containsPt (v : Index) (g : List Nat) : Prop :=
  v.length = g.length ∧
    ∀ i, i < g.length →
      (v.getD i (0, 0)).1 ≤ g.getD i 0 ∧ g.getD i 0 < (v.getD i (0, 0)).2

instance containsPt_decidable (v : Index) (g : List Nat) : Decidable (containsPt v g) := by
  unfold containsPt
  infer_instance

/-- Distribute the joint coordinate t over the listed mesh axes as mixed
radix digits, in declared order (the most significant digit first),
writing each digit into the coordinate vector at the position of its
axis. This realizes one target chunk coordinate of a device. -/
def setDigits (m : Mesh) : List Nat → List String → Nat → List Nat
  | coords, [], _ => coords
  | coords, a :: rest, t =>
      setDigits m (coords.set (m.axisPos a) (t / ((rest.map m.axisSize).prod)))
        rest (t % ((rest.map m.axisSize).prod))

/-- Per array axis the (contributing mesh axes, target chunk coordinate)
pair of the shard containing the global point g: the chunk coordinate
is the coordinate of g divided by the shard size of that axis. -/
def shardTargets (global_shape : List Nat) (m : Mesh) (mesh_axes : List AxisRes)
    (g : List Nat) : List (List String × Nat) :=
  (List.range global_shape.length).map (fun i =>
    (namesOf (mesh_axes.getD i .unsharded),
     (g.getD i 0) / ((get_shard_shape global_shape m mesh_axes).getD i 0)))

/-- The mesh coordinate vector of a device whose shard contains the
global point g: start from the all zero vector and write the digits of
every target chunk coordinate. -/
def buildCoords (global_shape : List Nat) (m : Mesh) (mesh_axes : List AxisRes)
    (g : List Nat) : List Nat :=
  (shardTargets global_shape m mesh_axes g).foldl
    (fun c u => setDigits m c u.1 u.2) (List.replicate m.axes.length 0)

/- ------------------------------------------------------------------
Theorems
------------------------------------------------------------------ -/

theorem gss_eq_append (shape : List Nat) (m : Mesh) (axes : List AxisRes) :
    get_shard_shape shape m axes =
      ((axes.zip shape).map (shardChunk m))
        ++ shape.drop ((axes.zip shape).map (shardChunk m)).length := by
  unfold get_shard_shape
  by_cases h : ((axes.zip shape).map (shardChunk m)).length = shape.length
  · simp only [h, ne_eq, not_true_eq_false, if_false]
    rw [List.drop_length, List.append_nil]
  · simp only [ne_eq, h, not_false_eq_true, if_true]

theorem gss_nil (shape : List Nat) (m : Mesh) :
    get_shard_shape shape m [] = shape := by
  cases shape <;> simp [get_shard_shape]

theorem gss_cons (n : Nat) (ns : List Nat) (m : Mesh) (a : AxisRes) (as : List AxisRes) :
    get_shard_shape (n :: ns) m (a :: as)
      = shardChunk m (a, n) :: get_shard_shape ns m as := by
  rw [gss_eq_append, gss_eq_append]
  simp

theorem gss_length (shape : List Nat) (m : Mesh) (axes : List AxisRes)
    (hlen : axes.length ≤ shape.length) :
    (get_shard_shape shape m axes).length = shape.length := by
  rw [gss_eq_append]
  simp only [List.length_append, List.length_map, List.length_zip, List.length_drop]
  omega

theorem gss_getD (m : Mesh) : ∀ (axes : List AxisRes) (shape : List Nat) (i : Nat),
    axes.length ≤ shape.length → (∀ e ∈ axes, e.wfEntry = true) →
    i < shape.length →
    (get_shard_shape shape m axes).getD i 0 = specShardSize shape m axes i := by
  intro axes
  induction axes with
  | nil =>
      intro shape i _ _ hi
      simp [gss_nil, specShardSize]
  | cons a as ih =>
      intro shape i hlen hne hi
      cases shape with
      | nil => simp at hi
      | cons n ns =>
          rw [gss_cons]
          cases i with
          | zero =>
              simp only [List.getD_eq_getElem?_getD, List.getElem?_cons_zero,
                Option.getD_some, specShardSize]
              cases a with
              | unsharded => simp [shardChunk, AxisRes.falsy]
              | single nm =>
                  have hnm : AxisRes.wfEntry (.single nm) = true := hne _ (by simp)
                  have hemp : nm.isEmpty = false := by
                    simpa [AxisRes.wfEntry] using hnm
                  simp [shardChunk, AxisRes.falsy, hemp]
              | combined ls =>
                  cases ls with
                  | nil => simp [shardChunk, AxisRes.falsy]
                  | cons b bs => simp [shardChunk, AxisRes.falsy]
          | succ j =>
              simp only [List.getD_eq_getElem?_getD, List.getElem?_cons_succ]
              have h1 := ih ns j (by simpa using hlen)
                (fun x hx => hne x (List.mem_cons_of_mem _ hx)) (by simpa using hi)
              simp only [List.getD_eq_getElem?_getD] at h1
              rw [h1]
              simp [specShardSize, List.getD_eq_getElem?_getD]

/-- Claim C2: the shard shape function returns, per array axis, the global
size for an unsharded entry, the global size divided by the named mesh
axis size for a single name, and the global size divided by the product
of the named sizes for a tuple entry; trailing axes beyond the mapping
are unsharded, and the result has the rank of the global shape. -/
theorem C2_shard_shape_spec (global_shape : List Nat) (m : Mesh)
    (mesh_axes : List AxisRes)
    (hlen : mesh_axes.length ≤ global_shape.length)
    (hne : ∀ e ∈ mesh_axes, e.wfEntry = true) :
    (get_shard_shape global_shape m mesh_axes).length = global_shape.length ∧
    ∀ i, i < global_shape.length →
      (get_shard_shape global_shape m mesh_axes).getD i 0
        = specShardSize global_shape m mesh_axes i :=
  ⟨gss_length global_shape m mesh_axes hlen,
   fun i hi => gss_getD m mesh_axes global_shape i hlen hne hi⟩

/-- Witness for C2 at shape (4, 4, 5), the 2 by 2 mesh and mapping
(x, (y)): ranks agree and axis 1 is divided by the size of y while the
trailing axis 2 stays at 5. -/
theorem C2_shard_shape_spec_witness :
    (get_shard_shape [4, 4, 5] mesh2x2 [.single "x", .combined ["y"]]).length = 3 ∧
    (get_shard_shape [4, 4, 5] mesh2x2 [.single "x", .combined ["y"]]).getD 1 0
      = specShardSize [4, 4, 5] mesh2x2 [.single "x", .combined ["y"]] 1 ∧
    (get_shard_shape [4, 4, 5] mesh2x2 [.single "x", .combined ["y"]]).getD 2 0
      = specShardSize [4, 4, 5] mesh2x2 [.single "x", .combined ["y"]] 2 := by
  refine ⟨(C2_shard_shape_spec _ _ _ (by decide) (by decide)).1, ?_, ?_⟩
  · exact (C2_shard_shape_spec [4, 4, 5] mesh2x2 [.single "x", .combined ["y"]]
      (by decide) (by decide)).2 1 (by decide)
  · exact (C2_shard_shape_spec [4, 4, 5] mesh2x2 [.single "x", .combined ["y"]]
      (by decide) (by decide)).2 2 (by decide)

theorem annotate_length : ∀ (pairs : List (Device × Index)) (cnt : Index → Nat),
    (annotateReplicas pairs cnt).length = pairs.length := by
  intro pairs
  induction pairs with
  | nil => intro cnt; simp [annotateReplicas]
  | cons p rest ih =>
      intro cnt
      obtain ⟨d, idx⟩ := p
      simp [annotateReplicas, ih]

theorem annotate_map_fst : ∀ (pairs : List (Device × Index)) (cnt : Index → Nat),
    (annotateReplicas pairs cnt).map (fun t => t.1) = pairs.map (fun t => t.1) := by
  intro pairs
  induction pairs with
  | nil => intro cnt; simp [annotateReplicas]
  | cons p rest ih =>
      intro cnt
      obtain ⟨d, idx⟩ := p
      simp [annotateReplicas, ih]

theorem createShardsAux_ok (proc : Nat) (lb : Device → Option DeviceArray) :
    ∀ (pairs : List (Device × Index)) (cnt : Index → Nat) (gs ls : List Shard),
    createShardsAux proc lb pairs cnt = .ok (gs, ls) →
    gs.map shardMeta = annotateReplicas pairs cnt ∧
    ls = gs.filter (fun s => s.device.processIndex == proc) ∧
    (∀ s ∈ gs, s.data.isSome = (s.device.processIndex == proc)) ∧
    (∀ s ∈ gs, ∀ b, s.data = some b → lb s.device = some b) := by
  intro pairs
  induction pairs with
  | nil =>
      intro cnt gs ls h
      simp only [createShardsAux, Except.ok.injEq, Prod.mk.injEq] at h
      obtain ⟨h1, h2⟩ := h
      subst h1; subst h2
      simp [annotateReplicas]
  | cons p rest ih =>
      obtain ⟨d, idx⟩ := p
      intro cnt gs ls h
      simp only [createShardsAux] at h
      cases hl : d.processIndex == proc with
      | true =>
          rw [hl] at h
          simp only [if_true] at h
          cases hlb : lb d with
          | none => rw [hlb] at h; cases h
          | some b =>
              rw [hlb] at h
              simp only [reduceCtorEq, if_false] at h
              cases hrec : createShardsAux proc lb rest
                  (fun j => if j = idx then cnt j + 1 else cnt j) with
              | error e => rw [hrec] at h; cases h
              | ok pr =>
                  obtain ⟨gs2, ls2⟩ := pr
                  rw [hrec] at h
                  simp only [Except.ok.injEq, Prod.mk.injEq] at h
                  obtain ⟨hgs, hls⟩ := h
                  subst hgs; subst hls
                  obtain ⟨ih1, ih2, ih3, ih4⟩ := ih _ _ _ hrec
                  refine ⟨?_, ?_, ?_, ?_⟩
                  · simp [annotateReplicas, shardMeta, ih1]
                  · simp [List.filter, hl, ih2]
                  · intro s hs
                    rcases List.mem_cons.mp hs with h1 | h1
                    · subst h1; simp [hl]
                    · exact ih3 s h1
                  · intro s hs b2 hb
                    rcases List.mem_cons.mp hs with h1 | h1
                    · subst h1
                      simp only [Option.some.injEq] at hb
                      subst hb
                      exact hlb
                    · exact ih4 s h1 b2 hb
      | false =>
          rw [hl] at h
          simp only [Bool.false_eq_true, if_false] at h
          cases hrec : createShardsAux proc lb rest
              (fun j => if j = idx then cnt j + 1 else cnt j) with
          | error e => rw [hrec] at h; cases h
          | ok pr =>
              obtain ⟨gs2, ls2⟩ := pr
              rw [hrec] at h
              simp only [Except.ok.injEq, Prod.mk.injEq] at h
              obtain ⟨hgs, hls⟩ := h
              subst hgs; subst hls
              obtain ⟨ih1, ih2, ih3, ih4⟩ := ih _ _ _ hrec
              refine ⟨?_, ?_, ?_, ?_⟩
              · simp [annotateReplicas, shardMeta, ih1]
              · simp [List.filter, hl, ih2]
              · intro s hs
                rcases List.mem_cons.mp hs with h1 | h1
                · subst h1; simp [hl]
                · exact ih3 s h1
              · intro s hs b2 hb
                rcases List.mem_cons.mp hs with h1 | h1
                · subst h1; cases hb
                · exact ih4 s h1 b2 hb

theorem init_ok (global_shape : List Nat) (m : Mesh) (mesh_axes : List AxisRes)
    (bufs : List DeviceArray) (proc : Nat) (gda : GlobalDeviceArray)
    (h : GlobalDeviceArray.init global_shape m mesh_axes bufs proc = .ok gda) :
    bufs.length = (m.localDevices proc).length ∧
    create_shards global_shape m mesh_axes bufs proc
      = .ok (gda.global_shards, gda.local_shards) ∧
    (∀ db ∈ bufs, db.shape = get_shard_shape global_shape m mesh_axes) ∧
    bufs ≠ [] ∧
    (∀ db ∈ bufs, db.dtype = gda.dtype) ∧
    gda.global_shape = global_shape := by
  unfold GlobalDeviceArray.init at h
  by_cases hcount : bufs.length ≠ (m.localDevices proc).length
  · rw [if_pos hcount] at h; cases h
  · rw [if_neg hcount] at h
    cases heq : create_shards global_shape m mesh_axes bufs proc with
    | error e => rw [heq] at h; cases h
    | ok pr =>
        obtain ⟨gs, ls⟩ := pr
        rw [heq] at h
        dsimp only at h
        by_cases hshapes : (bufs.all (fun db =>
            db.shape == get_shard_shape global_shape m mesh_axes)) = true
        · rw [if_pos hshapes] at h
          cases hb : bufs with
          | nil => subst hb; cases h
          | cons db0 rest =>
              subst hb
              dsimp only at h
              by_cases hdtypes : ((db0 :: rest).all (fun db => db.dtype == db0.dtype)) = true
              · rw [if_pos hdtypes] at h
                simp only [Except.ok.injEq] at h
                subst h
                refine ⟨by omega, rfl, ?_, by simp, ?_, rfl⟩
                · intro db hdb
                  have := List.all_eq_true.mp hshapes db hdb
                  simpa using this
                · intro db hdb
                  have := List.all_eq_true.mp hdtypes db hdb
                  simpa using this
              · rw [if_neg hdtypes] at h; cases h
        · rw [if_neg hshapes] at h; cases h

theorem create_shards_eq (global_shape : List Nat) (m : Mesh) (mesh_axes : List AxisRes)
    (bufs : List DeviceArray) (proc : Nat) :
    create_shards global_shape m mesh_axes bufs proc
      = createShardsAux proc (bufLookup bufs)
          (get_shard_indices global_shape m mesh_axes) (fun _ => 0) := rfl

theorem createShardsAux_no_local (proc : Nat) (lb : Device → Option DeviceArray) :
    ∀ (pairs : List (Device × Index)) (cnt : Index → Nat),
    (∀ pr ∈ pairs, (pr : Device × Index).1.processIndex ≠ proc) →
    ∃ gs, createShardsAux proc lb pairs cnt = .ok (gs, []) := by
  intro pairs
  induction pairs with
  | nil => intro cnt _; exact ⟨[], rfl⟩
  | cons p rest ih =>
      obtain ⟨d, idx⟩ := p
      intro cnt hnl
      have hd : (d.processIndex == proc) = false := by
        simpa using hnl (d, idx) (by simp)
      obtain ⟨gs, hgs⟩ := ih (fun j => if j = idx then cnt j + 1 else cnt j)
        (fun pr hpr => hnl pr (List.mem_cons_of_mem _ hpr))
      exact ⟨⟨d, idx, cnt idx, none⟩ :: gs, by simp [createShardsAux, hd, hgs]⟩

/-- Claim C10: a process owning no device of the mesh cannot construct a
GlobalDeviceArray. With the empty buffer list the count precondition
holds (0 buffers for 0 local devices), yet the constructor reads
device_buffers[0].dtype unconditionally (source line 225) and fails
with the IndexError modelled as emptyBuffers; every other buffer list
fails the count precondition, so no construction succeeds. -/
theorem C10_zero_local_devices (global_shape : List Nat) (m : Mesh)
    (mesh_axes : List AxisRes) (proc : Nat)
    (hl : m.localDevices proc = []) :
    GlobalDeviceArray.init global_shape m mesh_axes [] proc = .error .emptyBuffers ∧
    ∀ (bufs : List DeviceArray) (gda : GlobalDeviceArray),
      GlobalDeviceArray.init global_shape m mesh_axes bufs proc ≠ .ok gda := by
  have hnl : ∀ pr ∈ get_shard_indices global_shape m mesh_axes,
      (pr : Device × Index).1.processIndex ≠ proc := by
    intro pr hpr heqp
    have hd : pr.1 ∈ m.devices := by
      obtain ⟨d, i⟩ := pr
      exact (List.of_mem_zip hpr).1
    have : pr.1 ∈ m.localDevices proc := by
      simp [Mesh.localDevices, List.mem_filter, hd, heqp]
    rw [hl] at this
    cases this
  constructor
  · obtain ⟨gs, hgs⟩ := createShardsAux_no_local proc (bufLookup [])
      (get_shard_indices global_shape m mesh_axes) (fun _ => 0) hnl
    unfold GlobalDeviceArray.init
    rw [if_neg (by simp [hl])]
    rw [create_shards_eq, hgs]
    simp
  · intro bufs gda h
    obtain ⟨hc, _, _, hnil, _, _⟩ := init_ok global_shape m mesh_axes bufs proc gda h
    rw [hl] at hc
    simp only [List.length_nil] at hc
    exact hnil (List.length_eq_zero.mp hc)

/-- Witness for C10: on a one device mesh owned by process 1, process 0
fails to construct even from the empty buffer list. -/
theorem C10_zero_local_devices_witness :
    GlobalDeviceArray.init [4] mesh1r [.single "x"] [] 0 = .error .emptyBuffers :=
  (C10_zero_local_devices [4] mesh1r [.single "x"] 0 (by decide)).1

/-- Claim C6: when the supplied buffer count differs from the local
device count, construction fails with the precondition violation of
source line 216, which is checked before any Shard is built (the
countMismatch error is distinct from every error _create_shards can
raise, and the check precedes the _create_shards call in the
definition). -/
theorem C6_buffer_count_precondition (global_shape : List Nat) (m : Mesh)
    (mesh_axes : List AxisRes) (bufs : List DeviceArray) (proc : Nat)
    (h : bufs.length ≠ (m.localDevices proc).length) :
    GlobalDeviceArray.init global_shape m mesh_axes bufs proc
      = .error .countMismatch := by
  unfold GlobalDeviceArray.init
  simp [h]

/-- Witness for C6, concrete scenario C of the spec: three buffers for
the four locally owned devices of mesh2x2. -/
theorem C6_buffer_count_precondition_witness :
    GlobalDeviceArray.init [4, 4] mesh2x2 [.single "x", .single "y"]
      [⟨⟨0, 0⟩, [2, 2], 7⟩, ⟨⟨1, 0⟩, [2, 2], 7⟩, ⟨⟨2, 0⟩, [2, 2], 7⟩] 0
      = .error .countMismatch :=
  C6_buffer_count_precondition [4, 4] mesh2x2 [.single "x", .single "y"]
    [⟨⟨0, 0⟩, [2, 2], 7⟩, ⟨⟨1, 0⟩, [2, 2], 7⟩, ⟨⟨2, 0⟩, [2, 2], 7⟩] 0 (by decide)

/-- Claim C7: a supplied buffer whose shape differs from the computed
shard shape, or a dtype disagreement among supplied buffers, makes
construction fail; consequently every local buffer of a constructed
GlobalDeviceArray has the computed shard shape and the single dtype of
the array (source lines 220 to 229). -/
theorem C7_shape_dtype_validation (global_shape : List Nat) (m : Mesh)
    (mesh_axes : List AxisRes) (bufs : List DeviceArray) (proc : Nat) :
    ((∃ db ∈ bufs, db.shape ≠ get_shard_shape global_shape m mesh_axes) ∨
      (∃ db ∈ bufs, ∃ db2 ∈ bufs, db.dtype ≠ db2.dtype) →
      ∃ e, GlobalDeviceArray.init global_shape m mesh_axes bufs proc = .error e) ∧
    ∀ gda, GlobalDeviceArray.init global_shape m mesh_axes bufs proc = .ok gda →
      (∀ db ∈ bufs, db.shape = get_shard_shape global_shape m mesh_axes) ∧
      (∀ db ∈ bufs, db.dtype = gda.dtype) ∧
      ∀ s ∈ gda.local_shards, ∃ b, s.data = some b ∧
        b.shape = get_shard_shape global_shape m mesh_axes ∧ b.dtype = gda.dtype := by
  have hmain : ∀ gda, GlobalDeviceArray.init global_shape m mesh_axes bufs proc = .ok gda →
      (∀ db ∈ bufs, db.shape = get_shard_shape global_shape m mesh_axes) ∧
      (∀ db ∈ bufs, db.dtype = gda.dtype) ∧
      ∀ s ∈ gda.local_shards, ∃ b, s.data = some b ∧
        b.shape = get_shard_shape global_shape m mesh_axes ∧ b.dtype = gda.dtype := by
    intro gda h
    obtain ⟨hc, hcs, hsh, hnil, hdt, hgsh⟩ := init_ok global_shape m mesh_axes bufs proc gda h
    refine ⟨hsh, hdt, ?_⟩
    rw [create_shards_eq] at hcs
    obtain ⟨hmap, hfilter, hiff, hlb⟩ := createShardsAux_ok proc (bufLookup bufs) _ _ _ _ hcs
    intro s hs
    rw [hfilter] at hs
    obtain ⟨hsg, hp⟩ := List.mem_filter.mp hs
    have hsome : s.data.isSome = true := by rw [hiff s hsg]; exact hp
    obtain ⟨b, hb⟩ := Option.isSome_iff_exists.mp hsome
    have hfound : bufLookup bufs s.device = some b := hlb s hsg b hb
    have hmem : b ∈ bufs := by
      have := List.mem_of_find?_eq_some hfound
      exact List.mem_reverse.mp this
    exact ⟨b, hb, hsh b hmem, hdt b hmem⟩
  constructor
  · intro hmis
    cases hr : GlobalDeviceArray.init global_shape m mesh_axes bufs proc with
    | error e => exact ⟨e, rfl⟩
    | ok gda =>
        exfalso
        obtain ⟨hsh, hdt, _⟩ := hmain gda hr
        rcases hmis with ⟨db, hdb, hne⟩ | ⟨db, hdb, db2, hdb2, hne⟩
        · exact hne (hsh db hdb)
        · exact hne ((hdt db hdb).trans (hdt db2 hdb2).symm)
  · exact hmain

/-- Witness for C7: buffers of shape (4, 2) when the shard shape for a
fully sharded (4, 4) array on the 2 by 2 mesh is (2, 2) make the
construction error. -/
theorem C7_shape_dtype_validation_witness :
    ∃ e, GlobalDeviceArray.init [4, 4] mesh2x2 [.single "x", .single "y"] bufs4x2 0
      = .error e :=
  (C7_shape_dtype_validation [4, 4] mesh2x2 [.single "x", .single "y"] bufs4x2 0).1
    (Or.inl ⟨⟨⟨0, 0⟩, [4, 2], 7⟩, by decide, by decide⟩)

/-- Claim C8: in a constructed GlobalDeviceArray a shard holds data
exactly when its device is owned by the constructing process; a local
device without a buffer makes construction fail instead (keyError or
localDataNone), so no success exposes a local shard without data. -/
theorem C8_local_data_iff (global_shape : List Nat) (m : Mesh)
    (mesh_axes : List AxisRes) (bufs : List DeviceArray) (proc : Nat)
    (gda : GlobalDeviceArray)
    (h : GlobalDeviceArray.init global_shape m mesh_axes bufs proc = .ok gda) :
    ∀ s ∈ gda.global_shards, s.data.isSome = true ↔ s.device.processIndex = proc := by
  obtain ⟨_, hcs, _, _, _, _⟩ := init_ok global_shape m mesh_axes bufs proc gda h
  rw [create_shards_eq] at hcs
  obtain ⟨_, _, hiff, _⟩ := createShardsAux_ok proc (bufLookup bufs) _ _ _ _ hcs
  intro s hs
  rw [hiff s hs]
  exact beq_iff_eq

/-- Witness for C8 on the two process mesh: in the array process 0
constructs, the shard of the process 1 device has no data and the shard
of the local device has data. -/
theorem C8_local_data_iff_witness :
    ((⟨⟨0, 0⟩, [(0, 2)], 0, some bufP0⟩ : Shard).data.isSome = true ↔
      (⟨0, 0⟩ : Device).processIndex = 0) ∧
    ((⟨⟨1, 1⟩, [(2, 4)], 0, none⟩ : Shard).data.isSome = true ↔
      (⟨1, 1⟩ : Device).processIndex = 0) :=
  ⟨C8_local_data_iff [4] mesh2p [.single "x"] [bufP0] 0 gdaP0 rfl
      ⟨⟨0, 0⟩, [(0, 2)], 0, some bufP0⟩ (by decide),
   C8_local_data_iff [4] mesh2p [.single "x"] [bufP0] 0 gdaP0 rfl
      ⟨⟨1, 1⟩, [(2, 4)], 0, none⟩ (by decide)⟩

theorem meshCoords_length : ∀ sizes : List Nat, (meshCoords sizes).length = sizes.prod := by
  intro sizes
  induction sizes with
  | nil => rfl
  | cons s rest ih =>
      simp only [meshCoords, List.flatMap_def, List.length_flatten, List.map_map,
        Function.comp_def, List.length_map, List.map_const', List.length_range,
        List.sum_const_nat, List.prod_cons, ih]

theorem indicesList_length (global_shape : List Nat) (m : Mesh) (mesh_axes : List AxisRes) :
    (indicesList global_shape m mesh_axes).length = (m.axes.map (fun p => p.2)).prod := by
  simp [indicesList, meshCoords_length]

/-- Claim C9: a constructed GlobalDeviceArray has one global shard per
mesh device and one local shard per locally owned device, and the local
shard list is the subsequence of the global one on locally owned
devices in traversal order. -/
theorem C9_shard_list_lengths (global_shape : List Nat) (m : Mesh)
    (mesh_axes : List AxisRes) (bufs : List DeviceArray) (proc : Nat)
    (gda : GlobalDeviceArray)
    (hdev : m.devices.length = (m.axes.map (fun p => p.2)).prod)
    (h : GlobalDeviceArray.init global_shape m mesh_axes bufs proc = .ok gda) :
    gda.global_shards.length = m.devices.length ∧
    gda.local_shards.length = (m.localDevices proc).length ∧
    gda.local_shards
      = gda.global_shards.filter (fun s => s.device.processIndex == proc) := by
  obtain ⟨_, hcs, _, _, _, _⟩ := init_ok global_shape m mesh_axes bufs proc gda h
  rw [create_shards_eq] at hcs
  obtain ⟨hmap, hfilter, _, _⟩ := createShardsAux_ok proc (bufLookup bufs) _ _ _ _ hcs
  have hpl : (get_shard_indices global_shape m mesh_axes).length = m.devices.length := by
    simp [get_shard_indices, List.length_zip, indicesList_length, hdev]
  have hlen1 : gda.global_shards.length = m.devices.length := by
    have h2 := congrArg List.length hmap
    simp only [List.length_map, annotate_length] at h2
    exact h2.trans hpl
  have hdevs : gda.global_shards.map (fun s => s.device) = m.devices := by
    have h2 := congrArg (List.map (fun t : Device × Index × Nat => t.1)) hmap
    rw [List.map_map, annotate_map_fst] at h2
    have h3 : (get_shard_indices global_shape m mesh_axes).map (fun t => t.1)
        = m.devices := by
      have hle : m.devices.length ≤ (indicesList global_shape m mesh_axes).length := by
        rw [indicesList_length, hdev]
      simpa [get_shard_indices] using List.map_fst_zip m.devices
        (indicesList global_shape m mesh_axes) hle
    rw [h3] at h2
    exact h2
  refine ⟨hlen1, ?_, hfilter⟩
  rw [hfilter, ← List.countP_eq_length_filter]
  have hcp : gda.global_shards.countP (fun s => s.device.processIndex == proc)
      = m.devices.countP (fun d => d.processIndex == proc) := by
    rw [← hdevs, List.countP_map]
    rfl
  rw [hcp, Mesh.localDevices, ← List.countP_eq_length_filter]

/-- Witness for C9 on the two process mesh: the array process 0
constructs has two global shards, one local shard, and the local list
is the filtered global list. -/
theorem C9_shard_list_lengths_witness :
    gdaP0.global_shards.length = mesh2p.devices.length ∧
    gdaP0.local_shards.length = (mesh2p.localDevices 0).length ∧
    gdaP0.local_shards
      = gdaP0.global_shards.filter (fun s => s.device.processIndex == 0) :=
  C9_shard_list_lengths [4] mesh2p [.single "x"] [bufP0] 0 gdaP0 (by decide) rfl

theorem annotate_filter (v : Index) : ∀ (pairs : List (Device × Index)) (cnt : Index → Nat),
    ((annotateReplicas pairs cnt).filter (fun t => t.2.1 == v)).map (fun t => t.2.2)
      = List.range' (cnt v)
          (((annotateReplicas pairs cnt).filter (fun t => t.2.1 == v)).length) := by
  intro pairs
  induction pairs with
  | nil => intro cnt; simp [annotateReplicas]
  | cons p rest ih =>
      obtain ⟨d, idx⟩ := p
      intro cnt
      by_cases hv : idx = v
      · subst hv
        simp only [annotateReplicas, List.filter_cons, beq_self_eq_true, if_true,
          List.map_cons, List.length_cons, List.range'_succ]
        have h2 := ih (fun j => if j = idx then cnt j + 1 else cnt j)
        rw [h2]
        simp
      · have hb : (((d, idx, cnt idx) : Device × Index × Nat).2.1 == v) = false := by
          show (idx == v) = false
          simp [hv]
        simp only [annotateReplicas, List.filter_cons, hb, Bool.false_eq_true, if_false]
        have h2 := ih (fun j => if j = idx then cnt j + 1 else cnt j)
        simp only [if_neg (fun hvv => hv (Eq.symm hvv))] at h2
        exact h2

/-- Claim C3: in a constructed GlobalDeviceArray the devices sharing an
Index value (structural equality on the (start, stop) pairs) receive
replica ids exactly 0 to k-1, with no gaps and no duplicates, in the
order the devices appear in the canonical flat traversal (the global
shard list order). -/
theorem C3_replica_numbering (global_shape : List Nat) (m : Mesh)
    (mesh_axes : List AxisRes) (bufs : List DeviceArray) (proc : Nat)
    (gda : GlobalDeviceArray)
    (h : GlobalDeviceArray.init global_shape m mesh_axes bufs proc = .ok gda) :
    ∀ v : Index,
      (gda.global_shards.filter (fun s => s.index == v)).map (fun s => s.replica_id)
        = List.range ((gda.global_shards.filter (fun s => s.index == v)).length) := by
  intro v
  obtain ⟨_, hcs, _, _, _, _⟩ := init_ok global_shape m mesh_axes bufs proc gda h
  rw [create_shards_eq] at hcs
  obtain ⟨hmap, _, _, _⟩ := createShardsAux_ok proc (bufLookup bufs) _ _ _ _ hcs
  have key := annotate_filter v (get_shard_indices global_shape m mesh_axes) (fun _ => 0)
  rw [← hmap] at key
  rw [List.filter_map, List.map_map, List.length_map] at key
  simp only [Function.comp_def, shardMeta] at key
  rw [List.range_eq_range']
  exact key

/-- Witness for C3 on concrete scenario B: the two devices sharing each
of the two Index values of gdaB carry replica ids (0, 1) = range 2. -/
theorem C3_replica_numbering_witness :
    (gdaB.global_shards.filter (fun s => s.index == [(0, 4), (0, 2)])).map
        (fun s => s.replica_id)
      = List.range ((gdaB.global_shards.filter
          (fun s => s.index == [(0, 4), (0, 2)])).length) :=
  C3_replica_numbering [4, 4] mesh2x2 [.unsharded, .single "y"] bufs4x2 0 gdaB rfl
    [(0, 4), (0, 2)]

/-- Claim C5: the device to Index and replica assignment of a constructed
GlobalDeviceArray is the pure function annotateReplicas of the three
inputs (global shape, mesh, axis mapping) alone: two constructions from
identical inputs on any two processes, with any buffers, agree on the
full metadata of every global shard. -/
theorem C5_determinism (global_shape : List Nat) (m : Mesh) (mesh_axes : List AxisRes)
    (bufs bufs2 : List DeviceArray) (p q : Nat) (gda gda2 : GlobalDeviceArray)
    (h1 : GlobalDeviceArray.init global_shape m mesh_axes bufs p = .ok gda)
    (h2 : GlobalDeviceArray.init global_shape m mesh_axes bufs2 q = .ok gda2) :
    gda.global_shards.map shardMeta
      = annotateReplicas (get_shard_indices global_shape m mesh_axes) (fun _ => 0) ∧
    gda2.global_shards.map shardMeta
      = annotateReplicas (get_shard_indices global_shape m mesh_axes) (fun _ => 0) ∧
    gda.global_shards.map shardMeta = gda2.global_shards.map shardMeta := by
  obtain ⟨_, hcs1, _, _, _, _⟩ := init_ok global_shape m mesh_axes bufs p gda h1
  obtain ⟨_, hcs2, _, _, _, _⟩ := init_ok global_shape m mesh_axes bufs2 q gda2 h2
  rw [create_shards_eq] at hcs1 hcs2
  obtain ⟨hm1, _, _, _⟩ := createShardsAux_ok p (bufLookup bufs) _ _ _ _ hcs1
  obtain ⟨hm2, _, _, _⟩ := createShardsAux_ok q (bufLookup bufs2) _ _ _ _ hcs2
  exact ⟨hm1, hm2, hm1.trans hm2.symm⟩

/-- Witness for C5: processes 0 and 1 of the two process mesh construct
arrays whose global shard metadata agree. -/
theorem C5_determinism_witness :
    gdaP0.global_shards.map shardMeta
      = annotateReplicas (get_shard_indices [4] mesh2p [.single "x"]) (fun _ => 0) ∧
    gdaP1.global_shards.map shardMeta
      = annotateReplicas (get_shard_indices [4] mesh2p [.single "x"]) (fun _ => 0) ∧
    gdaP0.global_shards.map shardMeta = gdaP1.global_shards.map shardMeta :=
  C5_determinism [4] mesh2p [.single "x"] [bufP0] [bufP1] 0 1 gdaP0 gdaP1 rfl rfl

theorem groupsFun_addToGroups (i : Index) (d : Device) :
    ∀ (gs : List (Index × List Device)) (v : Index),
    groupsFun (addToGroups gs i d) v
      = if v = i then groupsFun gs i ++ [d] else groupsFun gs v := by
  intro gs
  induction gs with
  | nil =>
      intro v
      by_cases hv : v = i
      · subst hv; simp [addToGroups, groupsFun]
      · have hb : (i == v) = false := beq_eq_false_iff_ne.mpr (fun h => hv h.symm)
        simp [addToGroups, groupsFun, hv, hb]
  | cons q rest ih =>
      obtain ⟨j, ds⟩ := q
      intro v
      by_cases hji : j = i
      · subst hji
        simp only [addToGroups, if_pos rfl]
        by_cases hv : v = j
        · subst hv; simp [groupsFun]
        · have hb : (j == v) = false := beq_eq_false_iff_ne.mpr (fun h => hv h.symm)
          simp [groupsFun, hb, hv]
      · simp only [addToGroups, if_neg hji]
        have hbji : (j == i) = false := beq_eq_false_iff_ne.mpr hji
        by_cases hv : v = j
        · subst hv
          have hvi : ¬ v = i := fun h => hji h
          simp [groupsFun, hvi, List.find?_cons]
        · have hb : (j == v) = false := beq_eq_false_iff_ne.mpr (fun h => hv h.symm)
          rw [show groupsFun ((j, ds) :: addToGroups rest i d) v
              = groupsFun (addToGroups rest i d) v from by
            simp [groupsFun, List.find?_cons, hb]]
          rw [show groupsFun ((j, ds) :: rest) v = groupsFun rest v from by
            simp [groupsFun, List.find?_cons, hb]]
          rw [show groupsFun ((j, ds) :: rest) i = groupsFun rest i from by
            simp [groupsFun, List.find?_cons, hbji]]
          exact ih v

theorem groupsFun_fold (f : Device → Index) :
    ∀ (locals : List Device) (gs0 : List (Index × List Device)) (v : Index),
    groupsFun (locals.foldl (fun gs d => addToGroups gs (f d) d) gs0) v
      = groupsFun gs0 v ++ locals.filter (fun d => f d == v) := by
  intro locals
  induction locals with
  | nil => intro gs0 v; simp
  | cons d rest ih =>
      intro gs0 v
      simp only [List.foldl_cons, List.filter_cons]
      rw [ih, groupsFun_addToGroups]
      by_cases hv : v = f d
      · subst hv
        simp [List.append_assoc]
      · have hb : (f d == v) = false := beq_eq_false_iff_ne.mpr (fun h => hv h.symm)
        simp [hv, hb]

theorem addToGroups_keys (i : Index) (d : Device) :
    ∀ gs : List (Index × List Device),
    (addToGroups gs i d).map (fun pr => pr.1)
      = if i ∈ gs.map (fun pr => pr.1) then gs.map (fun pr => pr.1)
        else gs.map (fun pr => pr.1) ++ [i] := by
  intro gs
  induction gs with
  | nil => simp [addToGroups]
  | cons q rest ih =>
      obtain ⟨j, ds⟩ := q
      by_cases hji : j = i
      · subst hji
        simp [addToGroups]
      · simp only [addToGroups, if_neg hji, List.map_cons, ih]
        by_cases hm : i ∈ rest.map (fun pr => pr.1)
        · simp [hm, List.mem_cons]
        · have hcond : i ∉ (j, ds).1 :: rest.map (fun pr => pr.1) := by
            simp only [List.mem_cons]
            rintro (h | h)
            · exact hji h.symm
            · exact hm h
          rw [if_neg hm, if_neg hcond, List.cons_append]

theorem keys_fold_nodup (f : Device → Index) :
    ∀ (locals : List Device) (gs0 : List (Index × List Device)),
    ((gs0.map (fun pr => pr.1)).Nodup) →
    (((locals.foldl (fun gs d => addToGroups gs (f d) d) gs0).map
        (fun pr => pr.1)).Nodup) := by
  intro locals
  induction locals with
  | nil => intro gs0 h; simpa using h
  | cons d rest ih =>
      intro gs0 h
      simp only [List.foldl_cons]
      apply ih
      rw [addToGroups_keys]
      by_cases hm : f d ∈ gs0.map (fun pr => pr.1)
      · simpa [hm] using h
      · simp [hm, List.nodup_append, h]

theorem mem_keys_addToGroups (i : Index) (d : Device)
    (gs : List (Index × List Device)) (v : Index)
    (h : v ∈ gs.map (fun pr => pr.1) ∨ v = i) :
    v ∈ (addToGroups gs i d).map (fun pr => pr.1) := by
  rw [addToGroups_keys]
  by_cases hm : i ∈ gs.map (fun pr => pr.1)
  · rw [if_pos hm]
    rcases h with h | h
    · exact h
    · exact h ▸ hm
  · rw [if_neg hm]
    rcases h with h | h
    · exact List.mem_append_left _ h
    · exact List.mem_append_right _ (by simp [h])

theorem keys_fold_mono (f : Device → Index) :
    ∀ (locals : List Device) (gs0 : List (Index × List Device)) (v : Index),
    v ∈ gs0.map (fun pr => pr.1) →
    v ∈ (locals.foldl (fun gs d => addToGroups gs (f d) d) gs0).map (fun pr => pr.1) := by
  intro locals
  induction locals with
  | nil => intro gs0 v h; simpa using h
  | cons d rest ih =>
      intro gs0 v h
      simp only [List.foldl_cons]
      exact ih _ v (mem_keys_addToGroups (f d) d gs0 v (Or.inl h))

theorem keys_fold_mem (f : Device → Index) :
    ∀ (locals : List Device) (gs0 : List (Index × List Device)) (d0 : Device),
    d0 ∈ locals →
    f d0 ∈ (locals.foldl (fun gs d => addToGroups gs (f d) d) gs0).map
      (fun pr => pr.1) := by
  intro locals
  induction locals with
  | nil => intro gs0 d0 h; cases h
  | cons d rest ih =>
      intro gs0 d0 h
      simp only [List.foldl_cons]
      rcases List.mem_cons.mp h with h | h
      · subst h
        exact keys_fold_mono f rest _ (f d0)
          (mem_keys_addToGroups (f d0) d0 gs0 (f d0) (Or.inr rfl))
      · exact ih _ d0 h

theorem keys_fold_subset (f : Device → Index) :
    ∀ (locals : List Device) (gs0 : List (Index × List Device)) (v : Index),
    v ∈ (locals.foldl (fun gs d => addToGroups gs (f d) d) gs0).map (fun pr => pr.1) →
    v ∈ gs0.map (fun pr => pr.1) ∨ v ∈ locals.map f := by
  intro locals
  induction locals with
  | nil => intro gs0 v h; exact Or.inl (by simpa using h)
  | cons d rest ih =>
      intro gs0 v h
      simp only [List.foldl_cons] at h
      rcases ih _ v h with h2 | h2
      · rw [addToGroups_keys] at h2
        by_cases hm : f d ∈ gs0.map (fun pr => pr.1)
        · rw [if_pos hm] at h2
          exact Or.inl h2
        · rw [if_neg hm] at h2
          rcases List.mem_append.mp h2 with h3 | h3
          · exact Or.inl h3
          · right
            simp only [List.mem_singleton] at h3
            simp [h3]
      · right
        simp [List.mem_cons]
        right
        simpa using h2

theorem find?_of_mem_keys_nodup :
    ∀ (gs : List (Index × List Device)) (pr : Index × List Device),
    ((gs.map (fun t => t.1)).Nodup) → pr ∈ gs →
    gs.find? (fun t => t.1 == pr.1) = some pr := by
  intro gs
  induction gs with
  | nil => intro pr _ h; cases h
  | cons q rest ih =>
      intro pr hnd hmem
      rcases List.mem_cons.mp hmem with h | h
      · subst h
        simp [List.find?_cons]
      · have hq : q.1 ∉ rest.map (fun t => t.1) := by
          simp only [List.map_cons, List.nodup_cons] at hnd
          exact hnd.1
        have hne : (q.1 == pr.1) = false := by
          apply beq_eq_false_iff_ne.mpr
          intro hqq
          exact hq (hqq ▸ List.mem_map_of_mem (fun t => t.1) h)
        rw [List.find?_cons, hne]
        apply ih pr _ h
        simp only [List.map_cons, List.nodup_cons] at hnd
        exact hnd.2

/-- Counterexample to claim C1 as stated: on the one axis two device mesh
with an unsharded (4) array, all (two) local devices share one Index,
so cb_inp has exactly one group; a callback returning exactly one
buffer per group hands the constructor one buffer, but no broadcast
happens and the buffer sequence reaching the constructor has one entry
per group, not one per locally owned device: construction fails on the
buffer count precondition instead of succeeding. -/
theorem C1_counterexample :
    (cbInput [4] mesh2 [AxisRes.unsharded] 0).length = 1 ∧
    (cbOnePerGroup (cbInput [4] mesh2 [AxisRes.unsharded] 0)).length = 1 ∧
    (mesh2.localDevices 0).length = 2 ∧
    from_batched_callback_with_devices [4] mesh2 [AxisRes.unsharded] cbOnePerGroup 0
      = .error .countMismatch :=
  ⟨rfl, rfl, rfl, rfl⟩

/-- Claim C1 (amended): the grouped construction strategy invokes the
callback exactly once, passing one (Index, devices in group) pair per
distinct Index among locally owned devices (keys are distinct, each
group holds exactly the local devices carrying its Index in traversal
order, and every local device appears in a group); the returned buffer
sequence is passed unchanged to the direct constructor, which requires
one buffer per locally owned device, so the callback itself must
return one buffer per locally owned device and no per group broadcast
is performed. -/
theorem C1_grouped_callback_amended (global_shape : List Nat) (m : Mesh)
    (mesh_axes : List AxisRes)
    (cb : List (Index × List Device) → List DeviceArray) (proc : Nat) :
    ((cbInput global_shape m mesh_axes proc).map (fun pr => pr.1)).Nodup ∧
    (∀ pr ∈ cbInput global_shape m mesh_axes proc,
      pr.1 ∈ (m.localDevices proc).map
        (lookupIndex (get_shard_indices global_shape m mesh_axes)) ∧
      pr.2 = (m.localDevices proc).filter (fun d =>
        lookupIndex (get_shard_indices global_shape m mesh_axes) d == pr.1)) ∧
    (∀ d ∈ m.localDevices proc,
      lookupIndex (get_shard_indices global_shape m mesh_axes) d
        ∈ (cbInput global_shape m mesh_axes proc).map (fun pr => pr.1)) ∧
    from_batched_callback_with_devices global_shape m mesh_axes cb proc
      = GlobalDeviceArray.init global_shape m mesh_axes
          (cb (cbInput global_shape m mesh_axes proc)) proc := by
  have hnd : ((cbInput global_shape m mesh_axes proc).map (fun pr => pr.1)).Nodup :=
    keys_fold_nodup (lookupIndex (get_shard_indices global_shape m mesh_axes))
      (m.localDevices proc) [] (by simp)
  refine ⟨hnd, ?_, ?_, rfl⟩
  · intro pr hpr
    constructor
    · have hk : pr.1 ∈ (cbInput global_shape m mesh_axes proc).map (fun t => t.1) :=
        List.mem_map_of_mem (fun t => t.1) hpr
      rcases keys_fold_subset (lookupIndex (get_shard_indices global_shape m mesh_axes))
          (m.localDevices proc) [] pr.1 hk with h | h
      · simp at h
      · exact h
    · have hf : (cbInput global_shape m mesh_axes proc).find?
          (fun t => t.1 == pr.1) = some pr :=
        find?_of_mem_keys_nodup (cbInput global_shape m mesh_axes proc) pr hnd hpr
      have h1 : groupsFun (cbInput global_shape m mesh_axes proc) pr.1 = pr.2 := by
        simp [groupsFun, hf]
      have h2 : groupsFun (cbInput global_shape m mesh_axes proc) pr.1
          = groupsFun [] pr.1 ++ (m.localDevices proc).filter (fun d =>
              lookupIndex (get_shard_indices global_shape m mesh_axes) d == pr.1) :=
        groupsFun_fold (lookupIndex (get_shard_indices global_shape m mesh_axes))
          (m.localDevices proc) [] pr.1
      rw [h1] at h2
      simpa [groupsFun] using h2
  · intro d hd
    exact keys_fold_mem (lookupIndex (get_shard_indices global_shape m mesh_axes))
      (m.localDevices proc) [] d hd

/-- Witness for the amended C1 on concrete scenario D of the spec: shape
(4, 4), the 2 by 2 mesh, mapping (None, y); the callback receives two
groups (distinct keys) and its output goes unchanged to the
constructor. -/
theorem C1_grouped_callback_amended_witness :
    ((cbInput [4, 4] mesh2x2 [.unsharded, .single "y"] 0).map (fun pr => pr.1)).Nodup ∧
    from_batched_callback_with_devices [4, 4] mesh2x2 [.unsharded, .single "y"]
        cbOnePerGroup 0
      = GlobalDeviceArray.init [4, 4] mesh2x2 [.unsharded, .single "y"]
          (cbOnePerGroup (cbInput [4, 4] mesh2x2 [.unsharded, .single "y"] 0)) 0 :=
  ⟨(C1_grouped_callback_amended [4, 4] mesh2x2 [.unsharded, .single "y"]
      cbOnePerGroup 0).1,
   (C1_grouped_callback_amended [4, 4] mesh2x2 [.unsharded, .single "y"]
      cbOnePerGroup 0).2.2.2⟩

theorem coordIndex_length (global_shape : List Nat) (m : Mesh)
    (mesh_axes : List AxisRes) (coords : List Nat) :
    (coordIndex global_shape m mesh_axes coords).length = global_shape.length := by
  simp [coordIndex]

theorem coordIndex_getD (global_shape : List Nat) (m : Mesh) (mesh_axes : List AxisRes)
    (coords : List Nat) (i : Nat) (hi : i < global_shape.length) :
    (coordIndex global_shape m mesh_axes coords).getD i (0, 0)
      = (if mesh_axes.getD i .unsharded = .unsharded then
          ((0 : Nat), global_shape.getD i 0)
        else
          (combinedCoord m coords (namesOf (mesh_axes.getD i .unsharded))
              * (get_shard_shape global_shape m mesh_axes).getD i 0,
           combinedCoord m coords (namesOf (mesh_axes.getD i .unsharded))
              * (get_shard_shape global_shape m mesh_axes).getD i 0
             + (get_shard_shape global_shape m mesh_axes).getD i 0)) := by
  unfold coordIndex
  simp only [List.getD_eq_getElem?_getD]
  rw [List.getElem?_map, List.getElem?_range hi]
  cases h : mesh_axes[i]?.getD AxisRes.unsharded with
  | unsharded => simp [h]
  | single a => simp [h, namesOf]
  | combined as => simp [h, namesOf]

theorem mem_meshCoords : ∀ (sizes v : List Nat),
    v.length = sizes.length → (∀ i, i < sizes.length → v.getD i 0 < sizes.getD i 0) →
    v ∈ meshCoords sizes := by
  intro sizes
  induction sizes with
  | nil =>
      intro v hl _
      have : v = [] := List.length_eq_zero.mp hl
      simp [meshCoords, this]
  | cons s rest ih =>
      intro v hl hb
      cases v with
      | nil => simp at hl
      | cons c cs =>
          simp only [meshCoords, List.mem_flatMap]
          refine ⟨c, ?_, ?_⟩
          · have := hb 0 (by simp)
            simpa [List.mem_range] using this
          · simp only [List.mem_map]
            refine ⟨cs, ih cs (by simpa using hl) (fun i hi => ?_), rfl⟩
            have := hb (i + 1) (by simpa using hi)
            simpa using this

theorem axisPos_lt (m : Mesh) (a : String) (ha : a ∈ m.axes.map (fun p => p.1)) :
    m.axisPos a < m.axes.length := by
  have := List.indexOf_lt_length.mpr ha
  simpa [Mesh.axisPos] using this

theorem names_getD_axisPos (m : Mesh) (a : String) (ha : a ∈ m.axes.map (fun p => p.1)) :
    (m.axes.map (fun p => p.1)).getD (m.axisPos a) "" = a := by
  have hlt : (m.axes.map (fun p => p.1)).indexOf a
      < (m.axes.map (fun p => p.1)).length := List.indexOf_lt_length.mpr ha
  rw [Mesh.axisPos, List.getD_eq_getElem?_getD, List.getElem?_eq_getElem hlt]
  simp [List.getElem_indexOf]

theorem axisPos_inj (m : Mesh) (a b : String) (ha : a ∈ m.axes.map (fun p => p.1))
    (hb : b ∈ m.axes.map (fun p => p.1)) (hne : a ≠ b) :
    m.axisPos a ≠ m.axisPos b := by
  intro h
  apply hne
  have h1 := names_getD_axisPos m a ha
  have h2 := names_getD_axisPos m b hb
  rw [← h1, ← h2, h]

theorem findSize_eq_getD_indexOf :
    ∀ (l : List (String × Nat)) (a : String), a ∈ l.map (fun p => p.1) →
    ((l.find? (fun p => p.1 == a)).map (fun p => p.2)).getD 0
      = (l.map (fun p => p.2)).getD ((l.map (fun p => p.1)).indexOf a) 0 := by
  intro l
  induction l with
  | nil => intro a ha; simp at ha
  | cons q rest ih =>
      obtain ⟨b, s⟩ := q
      intro a ha
      by_cases hba : b = a
      · subst hba
        simp [List.find?_cons, List.indexOf_cons_self]
      · have hbeq : (b == a) = false := beq_eq_false_iff_ne.mpr hba
        have ha2 : a ∈ rest.map (fun p => p.1) := by
          rcases List.mem_cons.mp ha with h | h
          · exact absurd h.symm hba
          · exact h
        rw [List.map_cons, List.find?_cons]
        simp only [hbeq]
        have hstep : List.indexOf a (List.map (fun p => p.1) ((b, s) :: rest))
            = List.indexOf a (List.map (fun p => p.1) rest) + 1 := by
          rw [List.map_cons]
          exact List.indexOf_cons_ne _ (by simpa using hba)
        rw [hstep]
        simpa using ih a ha2

theorem axisSize_eq_sizes_getD (m : Mesh) (a : String)
    (ha : a ∈ m.axes.map (fun p => p.1)) :
    m.axisSize a = (m.axes.map (fun p => p.2)).getD (m.axisPos a) 0 :=
  findSize_eq_getD_indexOf m.axes a ha

theorem axisSize_pos (m : Mesh) (hpos : ∀ p ∈ m.axes, 0 < p.2) (a : String)
    (ha : a ∈ m.axes.map (fun p => p.1)) : 0 < m.axisSize a := by
  rw [axisSize_eq_sizes_getD m a ha]
  have hlt : m.axisPos a < (m.axes.map (fun p => p.2)).length := by
    simpa using axisPos_lt m a ha
  rw [List.getD_eq_getElem?_getD, List.getElem?_eq_getElem hlt]
  simp only [Option.getD_some, List.getElem_map]
  exact hpos _ (List.getElem_mem _)

theorem combined_foldl (m : Mesh) (coords : List Nat) :
    ∀ (as : List String) (c : Nat),
    as.foldl (fun acc a => acc * m.axisSize a + axisCoord m coords a) c
      = c * ((as.map m.axisSize).prod)
        + as.foldl (fun acc a => acc * m.axisSize a + axisCoord m coords a) 0 := by
  intro as
  induction as with
  | nil => intro c; simp
  | cons a rest ih =>
      intro c
      simp only [List.foldl_cons, List.map_cons, List.prod_cons]
      rw [ih (c * m.axisSize a + axisCoord m coords a),
        ih (0 * m.axisSize a + axisCoord m coords a)]
      ring

theorem combinedCoord_congr_aux (m : Mesh) (c1 c2 : List Nat) :
    ∀ (as : List String) (acc : Nat),
    (∀ a ∈ as, c1.getD (m.axisPos a) 0 = c2.getD (m.axisPos a) 0) →
    as.foldl (fun acc a => acc * m.axisSize a + axisCoord m c1 a) acc
      = as.foldl (fun acc a => acc * m.axisSize a + axisCoord m c2 a) acc := by
  intro as
  induction as with
  | nil => intro acc _; rfl
  | cons a rest ih =>
      intro acc h
      simp only [List.foldl_cons]
      have hc : axisCoord m c1 a = axisCoord m c2 a := by
        simpa [axisCoord] using h a (by simp)
      rw [hc]
      exact ih _ (fun b hb => h b (List.mem_cons_of_mem _ hb))

theorem combinedCoord_congr (m : Mesh) (c1 c2 : List Nat) (as : List String)
    (h : ∀ a ∈ as, c1.getD (m.axisPos a) 0 = c2.getD (m.axisPos a) 0) :
    combinedCoord m c1 as = combinedCoord m c2 as :=
  combinedCoord_congr_aux m c1 c2 as 0 h

theorem setDigits_spec (m : Mesh) (hpos : ∀ p ∈ m.axes, 0 < p.2) :
    ∀ (as : List String) (coords : List Nat) (t : Nat),
    as.Nodup → (∀ a ∈ as, a ∈ m.axes.map (fun p => p.1)) →
    coords.length = m.axes.length →
    t < ((as.map m.axisSize).prod) →
    (setDigits m coords as t).length = coords.length ∧
    (∀ k, (∀ a ∈ as, m.axisPos a ≠ k) →
      (setDigits m coords as t).getD k 0 = coords.getD k 0) ∧
    (∀ a ∈ as, (setDigits m coords as t).getD (m.axisPos a) 0 < m.axisSize a) ∧
    combinedCoord m (setDigits m coords as t) as = t := by
  intro as
  induction as with
  | nil =>
      intro coords t _ _ _ ht
      simp only [List.map_nil, List.prod_nil, Nat.lt_one_iff] at ht
      subst ht
      exact ⟨rfl, fun k _ => rfl, by simp, by simp [setDigits, combinedCoord]⟩
  | cons a rest ih =>
      intro coords t hnd hval hlen ht
      have hamem : a ∈ m.axes.map (fun p => p.1) := hval a (by simp)
      have hPpos : 0 < ((rest.map m.axisSize).prod) := by
        apply List.prod_pos
        intro x hx
        obtain ⟨b, hb, rfl⟩ := List.mem_map.mp hx
        exact axisSize_pos m hpos b (hval b (List.mem_cons_of_mem _ hb))
      have hdiglt : t / ((rest.map m.axisSize).prod) < m.axisSize a := by
        rw [Nat.div_lt_iff_lt_mul hPpos]
        calc t < ((a :: rest).map m.axisSize).prod := ht
          _ = m.axisSize a * ((rest.map m.axisSize).prod) := by
              simp [List.prod_cons]
      have hmod : t % ((rest.map m.axisSize).prod) < ((rest.map m.axisSize).prod) :=
        Nat.mod_lt _ hPpos
      have hposa : m.axisPos a < coords.length := by
        rw [hlen]; exact axisPos_lt m a hamem
      have hrestpos : ∀ b ∈ rest, m.axisPos b ≠ m.axisPos a := by
        intro b hb
        have hbm : b ∈ m.axes.map (fun p => p.1) := hval b (List.mem_cons_of_mem _ hb)
        have hba : b ≠ a := by
          intro hba
          subst hba
          exact (List.nodup_cons.mp hnd).1 hb
        exact axisPos_inj m b a hbm hamem hba
      obtain ⟨ihlen, ihunch, ihbound, ihcomb⟩ :=
        ih (coords.set (m.axisPos a) (t / ((rest.map m.axisSize).prod)))
          (t % ((rest.map m.axisSize).prod))
          (List.nodup_cons.mp hnd).2
          (fun b hb => hval b (List.mem_cons_of_mem _ hb))
          (by simpa using hlen) hmod
      have hstep : setDigits m coords (a :: rest) t
          = setDigits m (coords.set (m.axisPos a) (t / ((rest.map m.axisSize).prod)))
              rest (t % ((rest.map m.axisSize).prod)) := rfl
      have hdigit : (setDigits m coords (a :: rest) t).getD (m.axisPos a) 0
          = t / ((rest.map m.axisSize).prod) := by
        rw [hstep, ihunch (m.axisPos a) hrestpos]
        rw [List.getD_eq_getElem?_getD, List.getElem?_set_self hposa]
        simp
      refine ⟨?_, ?_, ?_, ?_⟩
      · rw [hstep, ihlen, List.length_set]
      · intro k hk
        rw [hstep, ihunch k (fun b hb => hk b (List.mem_cons_of_mem _ hb))]
        have hak : m.axisPos a ≠ k := hk a (by simp)
        rw [List.getD_eq_getElem?_getD, List.getD_eq_getElem?_getD,
          List.getElem?_set_ne hak]
      · intro b hb
        rcases List.mem_cons.mp hb with h | h
        · subst h
          rw [hdigit]
          exact hdiglt
        · rw [hstep]
          exact ihbound b h
      · have hcc : combinedCoord m (setDigits m coords (a :: rest) t) (a :: rest)
            = rest.foldl (fun acc x => acc * m.axisSize x
                + axisCoord m (setDigits m coords (a :: rest) t) x)
              (0 * m.axisSize a + axisCoord m (setDigits m coords (a :: rest) t) a) := by
          simp [combinedCoord]
        rw [hcc]
        have hca : axisCoord m (setDigits m coords (a :: rest) t) a
            = t / ((rest.map m.axisSize).prod) := by
          simpa [axisCoord] using hdigit
        rw [hca]
        rw [combined_foldl]
        have hz : rest.foldl (fun acc x => acc * m.axisSize x
              + axisCoord m (setDigits m coords (a :: rest) t) x) 0
            = combinedCoord m (setDigits m coords (a :: rest) t) rest := rfl
        rw [hz, hstep, ihcomb]
        have hd := Nat.div_add_mod t ((rest.map m.axisSize).prod)
        simp only [Nat.zero_mul, Nat.zero_add]
        rw [Nat.mul_comm]
        exact hd

theorem fold_setDigits_spec (m : Mesh) (hpos : ∀ p ∈ m.axes, 0 < p.2) :
    ∀ (ups : List (List String × Nat)) (coords : List Nat),
    coords.length = m.axes.length →
    ((ups.flatMap (fun u => u.1)).Nodup) →
    (∀ a ∈ ups.flatMap (fun u => u.1), a ∈ m.axes.map (fun p => p.1)) →
    (∀ u ∈ ups, u.2 < ((u.1.map m.axisSize).prod)) →
    (ups.foldl (fun c u => setDigits m c u.1 u.2) coords).length = coords.length ∧
    (∀ k, (∀ a ∈ ups.flatMap (fun u => u.1), m.axisPos a ≠ k) →
      (ups.foldl (fun c u => setDigits m c u.1 u.2) coords).getD k 0
        = coords.getD k 0) ∧
    (∀ u ∈ ups, ∀ a ∈ u.1,
      (ups.foldl (fun c u => setDigits m c u.1 u.2) coords).getD (m.axisPos a) 0
        < m.axisSize a) ∧
    (∀ u ∈ ups,
      combinedCoord m (ups.foldl (fun c u => setDigits m c u.1 u.2) coords) u.1
        = u.2) := by
  intro ups
  induction ups with
  | nil =>
      intro coords _ _ _ _
      exact ⟨rfl, fun k _ => rfl, by simp, by simp⟩
  | cons u rest ihf =>
      obtain ⟨as, t⟩ := u
      intro coords hlen hnd hval hup
      simp only [List.flatMap_cons] at hnd hval
      have hasnd : as.Nodup := (List.nodup_append.mp hnd).1
      have hrestnd : (rest.flatMap (fun u => u.1)).Nodup := (List.nodup_append.mp hnd).2.1
      have hdisj : ∀ a ∈ as, a ∉ rest.flatMap (fun u => u.1) := by
        intro a ha hmem
        exact (List.nodup_append.mp hnd).2.2 ha hmem
      have hasval : ∀ a ∈ as, a ∈ m.axes.map (fun p => p.1) :=
        fun a ha => hval a (List.mem_append_left _ ha)
      have hrestval : ∀ a ∈ rest.flatMap (fun u => u.1), a ∈ m.axes.map (fun p => p.1) :=
        fun a ha => hval a (List.mem_append_right _ ha)
      obtain ⟨sd1, sd2, sd3, sd4⟩ := setDigits_spec m hpos as coords t hasnd hasval hlen
        (hup (as, t) (by simp))
      obtain ⟨ih1, ih2, ih3, ih4⟩ := ihf (setDigits m coords as t)
        (sd1.trans hlen) hrestnd hrestval
        (fun u2 hu2 => hup u2 (List.mem_cons_of_mem _ hu2))
      have hfold : ((as, t) :: rest).foldl (fun c u => setDigits m c u.1 u.2) coords
          = rest.foldl (fun c u => setDigits m c u.1 u.2) (setDigits m coords as t) := rfl
      have hposkeep : ∀ a ∈ as,
          (rest.foldl (fun c u => setDigits m c u.1 u.2)
            (setDigits m coords as t)).getD (m.axisPos a) 0
          = (setDigits m coords as t).getD (m.axisPos a) 0 := by
        intro a ha
        apply ih2
        intro b hb
        have hba : b ≠ a := by
          intro hbaeq
          exact hdisj a ha (hbaeq ▸ hb)
        exact axisPos_inj m b a (hrestval b hb) (hasval a ha) hba
      refine ⟨?_, ?_, ?_, ?_⟩
      · rw [hfold, ih1, sd1]
      · intro k hk
        rw [hfold, ih2 k (fun a ha => hk a (List.mem_append_right _ ha)),
          sd2 k (fun a ha => hk a (List.mem_append_left _ ha))]
      · intro u2 hu2 a ha
        rcases List.mem_cons.mp hu2 with h | h
        · subst h
          rw [hfold, hposkeep a ha]
          exact sd3 a ha
        · rw [hfold]
          exact ih3 u2 h a ha
      · intro u2 hu2
        rcases List.mem_cons.mp hu2 with h | h
        · subst h
          rw [hfold]
          have hcongr : combinedCoord m
              (rest.foldl (fun c u => setDigits m c u.1 u.2) (setDigits m coords as t))
              as = combinedCoord m (setDigits m coords as t) as :=
            combinedCoord_congr m _ _ as (fun a ha => hposkeep a ha)
          rw [hcongr]
          exact sd4
        · rw [hfold]
          exact ih4 u2 h

theorem range_flatMap_namesOf : ∀ (axes : List AxisRes) (r : Nat), axes.length ≤ r →
    (List.range r).flatMap (fun i => namesOf (axes.getD i .unsharded))
      = axes.flatMap namesOf := by
  intro axes
  induction axes with
  | nil =>
      intro r _
      simp only [List.flatMap_nil]
      have : ∀ i : Nat, namesOf (([] : List AxisRes).getD i .unsharded) = [] := by
        intro i; simp [namesOf]
      simp [this, namesOf]
  | cons e rest ih =>
      intro r hr
      cases r with
      | zero => simp at hr
      | succ r2 =>
          rw [List.range_succ_eq_map]
          rw [List.flatMap_cons, List.flatMap_map]
          have h1 : namesOf ((e :: rest).getD 0 .unsharded) = namesOf e := by simp
          have h2 : (fun a : Nat => namesOf ((e :: rest).getD a.succ .unsharded))
              = fun i => namesOf (rest.getD i .unsharded) := by
            funext i
            simp
          rw [h1, h2, ih r2 (by simpa using hr), List.flatMap_cons]

theorem shard_size_uniform (global_shape : List Nat) (m : Mesh) (mesh_axes : List AxisRes)
    (hlen : mesh_axes.length ≤ global_shape.length)
    (hwf : ∀ e ∈ mesh_axes, e.wfEntry = true) (i : Nat) (hi : i < global_shape.length) :
    (get_shard_shape global_shape m mesh_axes).getD i 0
      = global_shape.getD i 0
        / ((namesOf (mesh_axes.getD i .unsharded)).map m.axisSize).prod := by
  rw [gss_getD m mesh_axes global_shape i hlen hwf hi]
  unfold specShardSize
  cases h : mesh_axes.getD i .unsharded with
  | unsharded => simp [namesOf]
  | single a => simp [namesOf]
  | combined as => simp [namesOf]

theorem chunk_coord_unique (s gi c1 c2 : Nat)
    (h1 : c1 * s ≤ gi) (h2 : gi < c1 * s + s)
    (h3 : c2 * s ≤ gi) (h4 : gi < c2 * s + s) : c1 = c2 := by
  rcases Nat.lt_trichotomy c1 c2 with h | h | h
  · exfalso
    have hm : (c1 + 1) * s ≤ c2 * s := Nat.mul_le_mul_right s h
    have hs : (c1 + 1) * s = c1 * s + s := Nat.succ_mul c1 s
    omega
  · exact h
  · exfalso
    have hm : (c2 + 1) * s ≤ c1 * s := Nat.mul_le_mul_right s h
    have hs : (c2 + 1) * s = c2 * s + s := Nat.succ_mul c2 s
    omega

theorem indicesList_unique_cover (global_shape : List Nat) (m : Mesh)
    (mesh_axes : List AxisRes) (g : List Nat) (hg : g.length = global_shape.length) :
    ∀ v1 v2, v1 ∈ indicesList global_shape m mesh_axes →
    v2 ∈ indicesList global_shape m mesh_axes →
    containsPt v1 g → containsPt v2 g → v1 = v2 := by
  intro v1 v2 h1 h2 hc1 hc2
  obtain ⟨coords1, _, rfl⟩ := List.mem_map.mp h1
  obtain ⟨coords2, _, rfl⟩ := List.mem_map.mp h2
  apply List.ext_getElem (by rw [coordIndex_length, coordIndex_length])
  intro i hi1 hi2
  have hi : i < global_shape.length := by
    rw [coordIndex_length] at hi1
    exact hi1
  have hgd1 : (coordIndex global_shape m mesh_axes coords1)[i]
      = (coordIndex global_shape m mesh_axes coords1).getD i (0, 0) := by
    rw [List.getD_eq_getElem?_getD, List.getElem?_eq_getElem hi1]
    rfl
  have hgd2 : (coordIndex global_shape m mesh_axes coords2)[i]
      = (coordIndex global_shape m mesh_axes coords2).getD i (0, 0) := by
    rw [List.getD_eq_getElem?_getD, List.getElem?_eq_getElem hi2]
    rfl
  rw [hgd1, hgd2, coordIndex_getD _ _ _ _ i hi, coordIndex_getD _ _ _ _ i hi]
  by_cases he : mesh_axes.getD i .unsharded = .unsharded
  · rw [if_pos he, if_pos he]
  · rw [if_neg he, if_neg he]
    obtain ⟨hl1, hp1⟩ := hc1
    obtain ⟨hl2, hp2⟩ := hc2
    have hig : i < g.length := by rw [hg]; exact hi
    have hv1 := hp1 i hig
    have hv2 := hp2 i hig
    rw [coordIndex_getD _ _ _ _ i hi, if_neg he] at hv1 hv2
    have hc12 : combinedCoord m coords1 (namesOf (mesh_axes.getD i .unsharded))
        = combinedCoord m coords2 (namesOf (mesh_axes.getD i .unsharded)) := by
      apply chunk_coord_unique ((get_shard_shape global_shape m mesh_axes).getD i 0)
        (g.getD i 0)
      · exact hv1.1
      · exact hv1.2
      · exact hv2.1
      · exact hv2.2
    rw [hc12]

/-- Claim C4: with positive axis sizes, valid distinct mesh axis names in
the mapping, a mapping no longer than the rank and divisible splits,
the distinct Index values of the shard index function tile the global
shape exactly: every in range global point is covered by exactly one
deduplicated Index value. -/
theorem C4_partition_coverage (global_shape : List Nat) (m : Mesh)
    (mesh_axes : List AxisRes)
    (hposz : ∀ p ∈ m.axes, 0 < p.2)
    (hdevs : m.devices.length = (m.axes.map (fun p => p.2)).prod)
    (hlen : mesh_axes.length ≤ global_shape.length)
    (hwf : ∀ e ∈ mesh_axes, e.wfEntry = true)
    (hnames : (mesh_axes.flatMap namesOf).Nodup)
    (hvalid : ∀ a ∈ mesh_axes.flatMap namesOf, a ∈ m.axes.map (fun p => p.1))
    (hdiv : ∀ i, i < global_shape.length →
      ((namesOf (mesh_axes.getD i .unsharded)).map m.axisSize).prod
        ∣ global_shape.getD i 0)
    (g : List Nat) (hg : g.length = global_shape.length)
    (hlt : ∀ i, i < global_shape.length → g.getD i 0 < global_shape.getD i 0) :
    ∃! v : Index,
      v ∈ ((get_shard_indices global_shape m mesh_axes).map (fun pr => pr.2)).dedup ∧
      containsPt v g := by
  have hvals : (get_shard_indices global_shape m mesh_axes).map (fun pr => pr.2)
      = indicesList global_shape m mesh_axes := by
    have hle : (indicesList global_shape m mesh_axes).length ≤ m.devices.length := by
      rw [indicesList_length, hdevs]
    exact List.map_snd_zip m.devices (indicesList global_shape m mesh_axes) hle
  have hups : ∀ u ∈ shardTargets global_shape m mesh_axes g,
      u.2 < ((u.1.map m.axisSize).prod) := by
    intro u hu
    obtain ⟨i, hir, rfl⟩ := List.mem_map.mp hu
    have hi : i < global_shape.length := List.mem_range.mp hir
    have hD := hdiv i hi
    have hn0 : 0 < global_shape.getD i 0 :=
      Nat.lt_of_le_of_lt (Nat.zero_le _) (hlt i hi)
    have hD0 := Nat.pos_of_dvd_of_pos hD hn0
    have hseq := shard_size_uniform global_shape m mesh_axes hlen hwf i hi
    have hs0 : 0 < (get_shard_shape global_shape m mesh_axes).getD i 0 := by
      rw [hseq]
      exact Nat.div_pos (Nat.le_of_dvd hn0 hD) hD0
    show (g.getD i 0) / ((get_shard_shape global_shape m mesh_axes).getD i 0)
      < ((namesOf (mesh_axes.getD i .unsharded)).map m.axisSize).prod
    rw [Nat.div_lt_iff_lt_mul hs0]
    calc g.getD i 0 < global_shape.getD i 0 := hlt i hi
      _ = ((namesOf (mesh_axes.getD i .unsharded)).map m.axisSize).prod
            * ((get_shard_shape global_shape m mesh_axes).getD i 0) := by
          rw [hseq, Nat.mul_div_cancel' hD]
  have hrepl : (List.replicate m.axes.length (0 : Nat)).length = m.axes.length := by simp
  have htn : (shardTargets global_shape m mesh_axes g).flatMap (fun u => u.1)
      = mesh_axes.flatMap namesOf := by
    unfold shardTargets
    rw [List.flatMap_map]
    exact range_flatMap_namesOf mesh_axes global_shape.length hlen
  obtain ⟨fb1, fb2, fb3, fb4⟩ := fold_setDigits_spec m hposz
    (shardTargets global_shape m mesh_axes g) (List.replicate m.axes.length 0)
    hrepl (by rw [htn]; exact hnames) (by rw [htn]; exact hvalid) hups
  have hclen : (buildCoords global_shape m mesh_axes g).length = m.axes.length := by
    unfold buildCoords
    rw [fb1, hrepl]
  have hmeshmem : buildCoords global_shape m mesh_axes g
      ∈ meshCoords (m.axes.map (fun p => p.2)) := by
    apply mem_meshCoords
    · rw [hclen]; simp
    · intro k hk
      by_cases hex : ∃ a ∈ (shardTargets global_shape m mesh_axes g).flatMap
          (fun u => u.1), m.axisPos a = k
      · obtain ⟨a, ha, hak⟩ := hex
        have hamesh : a ∈ m.axes.map (fun p => p.1) := by
          rw [htn] at ha
          exact hvalid a ha
        obtain ⟨u, hu, hau⟩ := List.mem_flatMap.mp ha
        have hbound : (buildCoords global_shape m mesh_axes g).getD (m.axisPos a) 0
            < m.axisSize a := fb3 u hu a hau
        rw [← hak]
        rw [← axisSize_eq_sizes_getD m a hamesh]
        exact hbound
      · push_neg at hex
        have hz : (buildCoords global_shape m mesh_axes g).getD k 0
            = (List.replicate m.axes.length (0 : Nat)).getD k 0 := fb2 k hex
        rw [hz]
        have hz2 : (List.replicate m.axes.length (0 : Nat)).getD k 0 = 0 := by
          simp only [List.getD_eq_getElem?_getD, List.getElem?_replicate]
          split <;> rfl
        rw [hz2]
        rw [List.getD_eq_getElem?_getD, List.getElem?_eq_getElem hk]
        simp only [Option.getD_some, List.getElem_map]
        exact hposz _ (List.getElem_mem _)
  have hvcont : containsPt
      (coordIndex global_shape m mesh_axes (buildCoords global_shape m mesh_axes g)) g := by
    refine ⟨by rw [coordIndex_length, hg], ?_⟩
    intro i hig
    have hi : i < global_shape.length := by rw [← hg]; exact hig
    rw [coordIndex_getD _ _ _ _ i hi]
    by_cases he : mesh_axes.getD i .unsharded = .unsharded
    · rw [if_pos he]
      exact ⟨Nat.zero_le _, hlt i hi⟩
    · rw [if_neg he]
      have hmemu : (namesOf (mesh_axes.getD i .unsharded),
          (g.getD i 0) / ((get_shard_shape global_shape m mesh_axes).getD i 0))
          ∈ shardTargets global_shape m mesh_axes g := by
        unfold shardTargets
        exact List.mem_map.mpr ⟨i, List.mem_range.mpr hi, rfl⟩
      have hcomb : combinedCoord m (buildCoords global_shape m mesh_axes g)
          (namesOf (mesh_axes.getD i .unsharded))
          = (g.getD i 0) / ((get_shard_shape global_shape m mesh_axes).getD i 0) :=
        fb4 _ hmemu
      rw [hcomb]
      have hD := hdiv i hi
      have hn0 : 0 < global_shape.getD i 0 :=
        Nat.lt_of_le_of_lt (Nat.zero_le _) (hlt i hi)
      have hD0 := Nat.pos_of_dvd_of_pos hD hn0
      have hseq := shard_size_uniform global_shape m mesh_axes hlen hwf i hi
      have hs0 : 0 < (get_shard_shape global_shape m mesh_axes).getD i 0 := by
        rw [hseq]
        exact Nat.div_pos (Nat.le_of_dvd hn0 hD) hD0
      constructor
      · exact Nat.div_mul_le_self _ _
      · have hdm := Nat.div_add_mod (g.getD i 0)
          ((get_shard_shape global_shape m mesh_axes).getD i 0)
        have hmod := Nat.mod_lt (g.getD i 0) hs0
        have hcm : (g.getD i 0) / ((get_shard_shape global_shape m mesh_axes).getD i 0)
              * ((get_shard_shape global_shape m mesh_axes).getD i 0)
            = ((get_shard_shape global_shape m mesh_axes).getD i 0)
              * ((g.getD i 0) / ((get_shard_shape global_shape m mesh_axes).getD i 0)) :=
          Nat.mul_comm _ _
        omega
  refine ⟨coordIndex global_shape m mesh_axes (buildCoords global_shape m mesh_axes g),
    ⟨?_, hvcont⟩, ?_⟩
  · rw [hvals, List.mem_dedup]
    exact List.mem_map_of_mem _ hmeshmem
  · intro w hw
    exact indicesList_unique_cover global_shape m mesh_axes g hg w _
      (by rw [hvals, List.mem_dedup] at hw; exact hw.1)
      (List.mem_map_of_mem _ hmeshmem) hw.2 hvcont

/-- Witness for C4 on concrete scenario A: the fully sharded (4, 4) array
on the 2 by 2 mesh; the point (1, 3) lies in exactly one distinct
Index. -/
theorem C4_partition_coverage_witness :
    ∃! v : Index,
      v ∈ ((get_shard_indices [4, 4] mesh2x2 [.single "x", .single "y"]).map
        (fun pr => pr.2)).dedup ∧ containsPt v [1, 3] :=
  C4_partition_coverage [4, 4] mesh2x2 [.single "x", .single "y"]
    (by decide) (by decide) (by decide) (by decide) (by decide) (by decide)
    (by decide) [1, 3] (by decide) (by decide)

end GDA
